import Mathlib

/-!
Verification of the reactive state container ("recoil clone"):
`Stateful` / `Atom` / `Selector` from `src/example/index.tsx`.

The embedding is a defunctionalized small-step interpreter:

* Cells live in a heap `Sys.cells : List (CellData V)`; a cell id is its
  index.  A cell carries its `value`, its `listeners` (the JS
  `Set<(value) => void>`, modelled as a duplicate-free list in insertion
  order, keyed by callback identity), and — for selectors — the generator
  expression and the `registeredDeps` set (a list in insertion order).
* JS `===` on values is modelled as equality of an abstract value type `V`
  with decidable equality: distinct object references are distinct
  elements of `V`.
* Callbacks are defunctionalized identities: `Callback.sel sid` is the
  closure `() => this.updateSelector()` that selector `sid` passes to
  `dep.subscribe` in `addDep` (the `registeredDeps` guard creates at most
  one such closure per `(selector, dep)` pair, so one identity per
  selector suffices), and `Callback.ext k` is an external consumer
  callback whose behaviour is the action script `env k`.
* Exceptions: JS exceptions unwind the stack but do not roll back heap
  mutations, so the result type `Res` carries the state at the point of
  the throw (`Res.exn`).  Fuel exhaustion (`Res.out`) is a modelling
  artefact, distinct from a thrown exception.
* Instrumentation: `Sys.log` records every listener invocation
  (`Ev.inv pid cb`, tagged with the id of the notification pass that
  performed it — `Stateful.emit` starts a fresh pass) and every run of a
  selector's generator (`Ev.genRun sid`).  The log and pass counter have
  no behavioural effect; they only make "invoked exactly once during this
  pass" and "the generator ran exactly once" stateable.
-/

namespace Coiled

/-- Defunctionalized callback identity.  `sel sid` is the subscription hook
`() => this.updateSelector()` of selector `sid`; `ext k` is an external
consumer callback. -/
inductive Callback where
  | sel (sid : Nat)
  | ext (k : Nat)
deriving DecidableEq, Repr

/-- Instrumentation events: `inv p cb` records that notification pass `p`
invoked callback `cb`; `genRun sid` records one execution of selector
`sid`'s generator. -/
inductive Ev where
  | inv (pid : Nat) (cb : Callback)
  | genRun (sid : Nat)
deriving DecidableEq, Repr

/-- Generator expressions: the body of a `SelectorGenerator<T>`.  `get dep`
is a call to the read capability (`Selector.addDep`), `thr` throws,
`bin f a b` evaluates `a` then `b` (JS left-to-right order) and combines
the results, `cond c p t e` branches on the value of `c`. -/
inductive GenExp (V : Type) where
  | const (v : V)
  | get (dep : Nat)
  | thr
  | bin (f : V → V → V) (a b : GenExp V)
  | cond (c : GenExp V) (p : V → Bool) (t e : GenExp V)

/-- One heap cell: `Stateful.value`, `Stateful.listeners`; for a selector
additionally the generator and `Selector.registeredDeps` (atoms have
`gen = none` and an empty `registeredDeps`). -/
structure CellData (V : Type) where
  value : V
  listeners : List Callback
  gen : Option (GenExp V)
  registeredDeps : List Nat

/-- The whole system state: the heap of cells plus instrumentation
(`nextPass` counter and the event log). -/
structure Sys (V : Type) where
  cells : List (CellData V)
  nextPass : Nat
  log : List Ev

variable {V : Type}

/-- Cell lookup by id. -/
def Sys.cell? (s : Sys V) (cid : Nat) : Option (CellData V) :=
  s.cells[cid]?

/-- `Stateful.snapshot`: the current value of the cell (missing cells read
as `default`; the claims only ever read existing cells). -/
def snapshot [Inhabited V] (s : Sys V) (cid : Nat) : V :=
  match s.cell? cid with
  | some c => c.value
  | none => default

/-- The listener set of a cell, in insertion order. -/
def listenersOf (s : Sys V) (cid : Nat) : List Callback :=
  match s.cell? cid with
  | some c => c.listeners
  | none => []

/-- The `registeredDeps` set of a cell, in insertion order. -/
def registeredDepsOf (s : Sys V) (cid : Nat) : List Nat :=
  match s.cell? cid with
  | some c => c.registeredDeps
  | none => []

/-- The generator of a cell (`none` for atoms). -/
def genOf (s : Sys V) (cid : Nat) : Option (GenExp V) :=
  match s.cell? cid with
  | some c => c.gen
  | none => none

/-- Replace one cell of the heap. -/
def setCell (s : Sys V) (cid : Nat) (c : CellData V) : Sys V :=
  { s with cells := s.cells.set cid c }

/-- Assignment `this.value = v` on cell `cid`. -/
def setVal (s : Sys V) (cid : Nat) (v : V) : Sys V :=
  match s.cell? cid with
  | some c => setCell s cid { c with value := v }
  | none => s

/-- Append one instrumentation event to the log. -/
def logApp (s : Sys V) (e : Ev) : Sys V :=
  { s with log := s.log ++ [e] }

/-- `Stateful.subscribe`: `this.listeners.add(callback)` — JS `Set.add`
keyed by callback identity: a no-op when the callback is already present,
otherwise appended at the end. -/
def subscribe (s : Sys V) (cid : Nat) (cb : Callback) : Sys V :=
  match s.cell? cid with
  | some c =>
    if cb ∈ c.listeners then s
    else setCell s cid { c with listeners := c.listeners ++ [cb] }
  | none => s

/-- The `disconnect` handle returned by `Stateful.subscribe`:
`this.listeners.delete(callback)`.  The handle is determined by the pair
(cell, callback); `Set.delete` of an absent element is a no-op. -/
def disconnect (s : Sys V) (cid : Nat) (cb : Callback) : Sys V :=
  match s.cell? cid with
  | some c => setCell s cid { c with listeners := c.listeners.erase cb }
  | none => s

/-- `Selector.addDep` (state part): if `dep` is not in `registeredDeps`,
subscribe the selector's hook to `dep` and add `dep` to `registeredDeps`;
otherwise do nothing.  (The value part — `return dep.snapshot()` — is
taken by the caller, `evalGen`.) -/
def addDep (s : Sys V) (sid dep : Nat) : Sys V :=
  match s.cell? sid with
  | some c =>
    if dep ∈ c.registeredDeps then s
    else
      let s1 := subscribe s dep (Callback.sel sid)
      match s1.cell? sid with
      | some c1 => setCell s1 sid { c1 with registeredDeps := c1.registeredDeps ++ [dep] }
      | none => s1
  | none => s

/-- Result of running a generator: the computed value and the state after
its `get` side effects, or the state at the point of a throw. -/
inductive GRes (V : Type) where
  | gok (v : V) (s : Sys V)
  | gexn (s : Sys V)

/-- The state component of a generator result. -/
def GRes.sys : GRes V → Sys V
  | .gok _ s => s
  | .gexn s => s

/-- Run the generator expression of selector `sid`: `get dep` is
`addDep(dep)` followed by `dep.snapshot()`. -/
def evalGen [Inhabited V] (sid : Nat) : Sys V → GenExp V → GRes V
  | s, .const v => .gok v s
  | s, .get dep =>
    let s1 := addDep s sid dep
    .gok (snapshot s1 dep) s1
  | s, .thr => .gexn s
  | s, .bin f a b =>
    match evalGen sid s a with
    | .gok va s1 =>
      match evalGen sid s1 b with
      | .gok vb s2 => .gok (f va vb) s2
      | .gexn s2 => .gexn s2
    | .gexn s1 => .gexn s1
  | s, .cond c p t e =>
    match evalGen sid s c with
    | .gok vc s1 => if p vc then evalGen sid s1 t else evalGen sid s1 e
    | .gexn s1 => .gexn s1

/-- One step of an external callback's behaviour script: call
`setState` on an atom, subscribe / disconnect an external callback, or
throw. -/
inductive Action (V : Type) where
  | set (cid : Nat) (v : V)
  | sub (cid : Nat) (k : Nat)
  | unsub (cid : Nat) (k : Nat)
  | thr

/-- Outcome of a stateful operation: normal completion, a propagating
exception (heap mutations persist), or fuel exhaustion (modelling
artefact only). -/
inductive Res (V : Type) where
  | ok (s : Sys V)
  | exn (s : Sys V)
  | out

/-- The state component of an outcome (`out` yields the empty system;
no claim evaluates it). -/
def Res.sys : Res V → Sys V
  | .ok s => s
  | .exn s => s
  | .out => ⟨[], 0, []⟩

/-- Whether the outcome is a normally completed state. -/
def Res.isOk : Res V → Bool
  | .ok _ => true
  | _ => false

/-- Whether the outcome is a propagating exception. -/
def Res.isExn : Res V → Bool
  | .exn _ => true
  | _ => false

/-- The pending work items of the interpreter, one per method of the
source: `upd` is `Stateful.update` (and `Atom.setState`), `emit` is
`Stateful.emit`, `cbs p l` is `emit`'s loop over the captured
`Array.from(this.listeners)` under pass id `p`, `cb` invokes one
callback body, `updSel` is `Selector.updateSelector`, `acts` runs an
external callback's remaining script. -/
inductive Task (V : Type) where
  | upd (cid : Nat) (v : V)
  | emit (cid : Nat)
  | cbs (p : Nat) (l : List Callback)
  | cb (c : Callback)
  | updSel (sid : Nat)
  | acts (l : List (Action V))

/-- The interpreter.  `env` gives each external callback its behaviour
script; `fuel` bounds the call depth (every nested method call costs one
unit).  Faithful points: `upd` gates on reference equality
(`this.value !== value`) before assigning and emitting; `emit` captures
the listener list once, at the start of the pass, and iterates that
snapshot; an exception thrown by a listener aborts the remainder of the
pass and propagates; `updSel` evaluates the generator first and only
passes the produced value to `update` when the generator returns
normally. -/
def runT [DecidableEq V] [Inhabited V] (env : Nat → List (Action V)) :
    Nat → Sys V → Task V → Res V
  | 0, _, _ => .out
  | Nat.succ f, s, t =>
    match t with
    | .upd cid v =>
      match s.cell? cid with
      | some c =>
        if c.value = v then .ok s
        else runT env f (setVal s cid v) (.emit cid)
      | none => .ok s
    | .emit cid =>
      let p := s.nextPass
      runT env f { s with nextPass := p + 1 } (.cbs p (listenersOf s cid))
    | .cbs _ [] => .ok s
    | .cbs p (c :: rest) =>
      match runT env f (logApp s (.inv p c)) (.cb c) with
      | .ok s1 => runT env f s1 (.cbs p rest)
      | r => r
    | .cb (.sel sid) => runT env f s (.updSel sid)
    | .cb (.ext k) => runT env f s (.acts (env k))
    | .updSel sid =>
      match genOf s sid with
      | some g =>
        match evalGen sid (logApp s (.genRun sid)) g with
        | .gok v s1 => runT env f s1 (.upd sid v)
        | .gexn s1 => .exn s1
      | none => .ok s
    | .acts [] => .ok s
    | .acts (a :: rest) =>
      match a with
      | .set cid v =>
        match runT env f s (.upd cid v) with
        | .ok s1 => runT env f s1 (.acts rest)
        | r => r
      | .sub cid k => runT env f (subscribe s cid (.ext k)) (.acts rest)
      | .unsub cid k => runT env f (disconnect s cid (.ext k)) (.acts rest)
      | .thr => .exn s

/-- `Atom.setState`: the public mutation entry point; it calls the base
`update`. -/
def setState [DecidableEq V] [Inhabited V] (env : Nat → List (Action V))
    (fuel : Nat) (s : Sys V) (cid : Nat) (v : V) : Res V :=
  runT env fuel s (.upd cid v)

/-- `atom({key, default})` / `new Atom(value)`: append a fresh cell with
the given initial value.  Its id is `s.cells.length`. -/
def mkAtom (s : Sys V) (v : V) : Sys V :=
  { s with cells := s.cells ++ [⟨v, [], none, []⟩] }

/-- `selector({key, get})` / `new Selector(generate)`: append a fresh cell
(`super(undefined)` — the placeholder is `default`), then run the
generator once and assign its result directly to `this.value`, bypassing
`update`.  A generator throw propagates out of the constructor. -/
def mkSelector [Inhabited V] (s : Sys V) (g : GenExp V) : Res V :=
  match evalGen s.cells.length
      (logApp { s with cells := s.cells ++ [⟨default, [], some g, []⟩] }
        (.genRun s.cells.length)) g with
  | .gok v s2 => .ok (setVal s2 s.cells.length v)
  | .gexn s2 => .exn s2

/-- A passive observer: an external callback whose behaviour script is
empty — it records its invocation and performs no further state
operation (the shape of the subscriber used by the spec's testable
properties). -/
def Passive (env : Nat → List (Action V)) (cb : Callback) : Prop :=
  ∃ k, cb = Callback.ext k ∧ env k = []

/-- How many invocation records (of any pass) the log holds for `cb`. -/
def invCount (l : List Ev) (cb : Callback) : Nat :=
  l.countP (fun e => match e with | .inv _ x => x == cb | _ => false)

/-! ### Concrete value domain and scenarios

`JVal` is a small JS value domain (numbers and strings) for the concrete
scenarios; `jadd` is JS `+` on it (string concatenation with number
coercion, which is what the `info` generator uses). -/

inductive JVal where
  | n (k : Nat)
  | s (t : String)
deriving DecidableEq, Repr

instance : Inhabited JVal := ⟨.n 0⟩

/-- JS string coercion of a value. -/
def jstr : JVal → String
  | .n k => toString k
  | .s t => t

/-- JS `+` when at least one operand is a string. -/
def jadd : JVal → JVal → JVal := fun a b => .s (jstr a ++ jstr b)

/-- Environment with no external callbacks (every script empty). -/
def envNilJ : Nat → List (Action JVal) := fun _ => []

/-- External callback behaviours for the `Nat`-valued scenarios:
callback 0 throws, callback 9 re-entrantly sets cell 0 to 77, all others
are passive. -/
def env1 : Nat → List (Action Nat)
  | 0 => [.thr]
  | 9 => [.set 0 77]
  | _ => []

/-- Callback 0 re-entrantly sets cell 0 to 3; all others passive. -/
def env7 : Nat → List (Action Nat)
  | 0 => [.set 0 3]
  | _ => []

/-- `age = createMutableCell(20)` (cell 0), `name = createMutableCell("John")`
(cell 1). -/
def c4sys0 : Sys JVal := mkAtom (mkAtom ⟨[], 0, []⟩ (.n 20)) (.s "John")

/-- The generator of `info`: `({get}) => get(name) + " is " + get(age)`. -/
def c4gen : GenExp JVal := .bin jadd (.bin jadd (.get 1) (.const (.s " is "))) (.get 0)

/-- After `info = createDerivedCell(...)` (cell 2). -/
def c4sys1 : Sys JVal := (mkSelector c4sys0 c4gen).sys

/-- After `name.setState("Sarah")`. -/
def c4sys2 : Sys JVal := (setState envNilJ 20 c4sys1 1 (.s "Sarah")).sys

/-- After `age.setState(30)`. -/
def c4sys3 : Sys JVal := (setState envNilJ 20 c4sys2 0 (.n 30)).sys

/-- One atom (value 0) with two subscribers: the throwing callback 0 and
the passive callback 1. -/
def c1a : Sys Nat := ⟨[⟨0, [.ext 0, .ext 1], none, []⟩], 0, []⟩

/-- One atom (value 1) whose only subscriber re-entrantly sets it to 77. -/
def c1b : Sys Nat := ⟨[⟨1, [.ext 9], none, []⟩], 0, []⟩

/-- One atom (value 1) with one passive subscriber. -/
def w1sys : Sys Nat := ⟨[⟨1, [.ext 1], none, []⟩], 0, []⟩

/-- A generator that reads cell 0 and, when it is 0, reads cell 1 (a new
dependency) and then throws. -/
def c6gen : GenExp Nat :=
  .cond (.get 0) (fun v => v != 0) (.const 7) (.bin (fun _ y => y) (.get 1) .thr)

/-- Atoms 1 and 5 (cells 0, 1) and the selector over `c6gen` (cell 2):
initially it reads only cell 0 (which is 1, truthy) and computes 7. -/
def c6s0 : Sys Nat := (mkSelector (mkAtom (mkAtom ⟨[], 0, []⟩ 1) 5) c6gen).sys

/-- The same system at the moment cell 0 has just been set to 0, right
before the selector's recomputation runs. -/
def c6w : Sys Nat := ⟨[⟨0, [.sel 2], none, []⟩, ⟨5, [], none, []⟩, ⟨7, [], some c6gen, [0]⟩], 0, []⟩

/-- The state after that recomputation throws: value still 7, dependency
set grown to `[0, 1]`, cell 1 newly subscribed. -/
def c6w1 : Sys Nat :=
  ⟨[⟨0, [.sel 2], none, []⟩, ⟨5, [.sel 2], none, []⟩, ⟨7, [], some c6gen, [0, 1]⟩], 0,
    [.genRun 2]⟩

/-- One atom (value 1) with the re-entrant subscriber 0 (sets the cell to
3 mid-pass) and the passive subscriber 1. -/
def c7s0 : Sys Nat := ⟨[⟨1, [.ext 0, .ext 1], none, []⟩], 0, []⟩

/-- The state after `emit` on `c7s0` under `env7`: pass 0 invoked both
subscribers exactly once despite the nested pass 1 triggered in between. -/
def c7sFinal : Sys Nat := ⟨[⟨3, [.ext 0, .ext 1], none, []⟩], 2,
  [.inv 0 (.ext 0), .inv 1 (.ext 0), .inv 1 (.ext 1), .inv 0 (.ext 1)]⟩

/-- One atom whose callback `ext 0` is already subscribed. -/
def c8s : Sys Nat := ⟨[⟨0, [.ext 0], none, []⟩], 0, []⟩

/-- One atom (value 1) with one passive subscriber, used to subscribe a
fresh callback `ext 2`. -/
def w8sys : Sys Nat := ⟨[⟨1, [.ext 1], none, []⟩], 0, []⟩

/-- One atom (value 1) with passive subscribers `ext 1` and `ext 3`. -/
def w10sys : Sys Nat := ⟨[⟨1, [.ext 1, .ext 3], none, []⟩], 0, []⟩

/-- One atom with value 5 and one subscriber. -/
def w2sys : Sys Nat := ⟨[⟨5, [.ext 0], none, []⟩], 0, []⟩

/-- An atom (cell 0, value 5) and a selector cell 1 whose generator reads
cell 0, with its dependency not yet registered. -/
def w3sys : Sys Nat := ⟨[⟨5, [], none, []⟩, ⟨0, [], some (.get 0), []⟩], 0, []⟩

/-- A single atom with value 5, base state for the derived-initialization
witness. -/
def w5sys : Sys Nat := mkAtom ⟨[], 0, []⟩ 5

/-- The generator `({get}) => get(A) + 1` over the atom `w5sys`. -/
def w5gen : GenExp Nat := .bin (fun a b => a + b) (.get 0) (.const 1)

/-- The state produced by running `w5gen` during construction of cell 1:
cell 0 gained the hook, the dependency set is `[0]`, the generator ran
once. -/
def w5mid : Sys Nat := ⟨[⟨5, [.sel 1], none, []⟩, ⟨0, [], some w5gen, [0]⟩], 0, [.genRun 1]⟩

/-! ### Predicates used by the verification

`Keeps`, `GEff`, `Evo` and their outcome-lifted variants describe how
interpreter steps may change the state; they are defined here and proved
to hold of the interpreter below. -/

def Keeps (s s' : Sys V) : Prop :=
  (∀ x, registeredDepsOf s x ⊆ registeredDepsOf s' x) ∧
  (∀ x sid, Callback.sel sid ∈ listenersOf s x → Callback.sel sid ∈ listenersOf s' x)

structure GEff [Inhabited V] (s s' : Sys V) : Prop where
  len : s'.cells.length = s.cells.length
  npass : s'.nextPass = s.nextPass
  log : s'.log = s.log
  snap : ∀ x, snapshot s' x = snapshot s x
  gen : ∀ x, genOf s' x = genOf s x
  deps : ∀ x, registeredDepsOf s x ⊆ registeredDepsOf s' x
  lmem : ∀ x cb, cb ∈ listenersOf s x → cb ∈ listenersOf s' x

/-- `Keeps`, lifted to interpreter outcomes (`out` is a modelling
artefact and carries no state). -/
def KeepsR (s : Sys V) : Res V → Prop
  | .ok s' => Keeps s s'
  | .exn s' => Keeps s s'
  | .out => True

/-- Does the event record an invocation performed by pass `p`? -/
def isInv (p : Nat) : Ev → Bool
  | .inv q _ => q == p
  | _ => false

/-- The pass id a `cbs` task logs under (`none` for every other task). -/
def cbsPid : Task V → Option Nat
  | .cbs p _ => some p
  | _ => none

/-- Every invocation record in `d` either carries a pass id at least `n`
(it was logged by a pass started after `nextPass` reached `n`) or the
pass id `p?` of the iterating `cbs` task itself. -/
def DOk (n : Nat) (p? : Option Nat) (d : List Ev) : Prop :=
  ∀ q cb, Ev.inv q cb ∈ d → n ≤ q ∨ p? = some q

/-- Log evolution from `s` to `s'`, as performed by a task whose own
pass id is `p?`: the pass counter is monotone, the log is append-only,
and every appended invocation record satisfies `DOk`. -/
def Evo (p? : Option Nat) (s s' : Sys V) : Prop :=
  s.nextPass ≤ s'.nextPass ∧ ∃ d, s'.log = s.log ++ d ∧ DOk s.nextPass p? d

/-- `Evo` lifted to interpreter outcomes. -/
def EvoR (p? : Option Nat) (s : Sys V) : Res V → Prop
  | .ok s' => Evo p? s s'
  | .exn s' => Evo p? s s'
  | .out => True


/-! ### Basic lemmas about the primitive state operations -/

theorem cell?_lt {s : Sys V} {cid : Nat} {c : CellData V} (h : s.cell? cid = some c) :
    cid < s.cells.length :=
  (List.getElem?_eq_some.mp h).1

theorem cell?_setCell_self {s : Sys V} {cid : Nat} {c0 : CellData V} (c : CellData V)
    (h : s.cell? cid = some c0) : (setCell s cid c).cell? cid = some c := by
  simp [setCell, Sys.cell?, List.getElem?_set_eq_of_lt _ (cell?_lt h)]

theorem cell?_setCell_ne (s : Sys V) {x cid : Nat} (c : CellData V) (h : cid ≠ x) :
    (setCell s cid c).cell? x = s.cell? x := by
  simp [setCell, Sys.cell?, List.getElem?_set_ne h]

theorem length_setCell (s : Sys V) (cid : Nat) (c : CellData V) :
    (setCell s cid c).cells.length = s.cells.length := by
  simp [setCell]

theorem snapshot_of_cell? [Inhabited V] {s : Sys V} {x : Nat} {c : CellData V}
    (h : s.cell? x = some c) : snapshot s x = c.value := by
  simp [snapshot, h]

theorem listenersOf_of_cell? {s : Sys V} {x : Nat} {c : CellData V}
    (h : s.cell? x = some c) : listenersOf s x = c.listeners := by
  simp [listenersOf, h]

theorem registeredDepsOf_of_cell? {s : Sys V} {x : Nat} {c : CellData V}
    (h : s.cell? x = some c) : registeredDepsOf s x = c.registeredDeps := by
  simp [registeredDepsOf, h]

theorem genOf_of_cell? {s : Sys V} {x : Nat} {c : CellData V}
    (h : s.cell? x = some c) : genOf s x = c.gen := by
  simp [genOf, h]

/-- `setVal` on a missing cell is the identity. -/
theorem setVal_none {s : Sys V} {cid : Nat} (h : s.cell? cid = none) (v : V) :
    setVal s cid v = s := by
  simp [setVal, h]

theorem setVal_of_cell? {s : Sys V} {cid : Nat} {c : CellData V}
    (h : s.cell? cid = some c) (v : V) :
    setVal s cid v = setCell s cid { c with value := v } := by
  simp [setVal, h]

/-! ### Growth predicates

`Keeps s s'` states that going from `s` to `s'` no selector lost a
registered dependency and no selector hook was unsubscribed from any
cell — the monotonicity that claim C9 asserts of every operation.
`GEff s s'` is the stronger description of what running a generator can
do to the state: it can only grow `registeredDeps` sets and listener
sets, and leaves every value, every generator, the log, the pass counter
and the number of cells unchanged. -/

theorem keeps_refl (s : Sys V) : Keeps s s :=
  ⟨fun _ => List.Subset.refl _, fun _ _ h => h⟩

theorem keeps_trans {s1 s2 s3 : Sys V} (h1 : Keeps s1 s2) (h2 : Keeps s2 s3) :
    Keeps s1 s3 :=
  ⟨fun x => (h1.1 x).trans (h2.1 x), fun x sid h => h2.2 x sid (h1.2 x sid h)⟩

theorem keeps_of_cells_eq {s s' : Sys V} (h : s'.cells = s.cells) : Keeps s s' := by
  have h1 : ∀ x, s'.cell? x = s.cell? x := fun x => by simp [Sys.cell?, h]
  exact ⟨fun x => by simp [registeredDepsOf, h1],
         fun x sid => by simp [listenersOf, h1]⟩

theorem geff_refl [Inhabited V] (s : Sys V) : GEff s s :=
  ⟨rfl, rfl, rfl, fun _ => rfl, fun _ => rfl, fun _ => List.Subset.refl _, fun _ _ h => h⟩

theorem geff_trans [Inhabited V] {s1 s2 s3 : Sys V} (h1 : GEff s1 s2) (h2 : GEff s2 s3) :
    GEff s1 s3 :=
  ⟨h2.len.trans h1.len, h2.npass.trans h1.npass, h2.log.trans h1.log,
   fun x => (h2.snap x).trans (h1.snap x), fun x => (h2.gen x).trans (h1.gen x),
   fun x => (h1.deps x).trans (h2.deps x), fun x cb h => h2.lmem x cb (h1.lmem x cb h)⟩

theorem GEff.keeps [Inhabited V] {s s' : Sys V} (h : GEff s s') : Keeps s s' :=
  ⟨h.deps, fun x sid => h.lmem x (Callback.sel sid)⟩

/-- Replacing cell `cid` by a cell with the same value and generator and
grown `registeredDeps` / listener sets is a `GEff` step. -/
theorem geff_setCell [Inhabited V] {s : Sys V} {cid : Nat} {c c' : CellData V}
    (h : s.cell? cid = some c)
    (hv : c'.value = c.value) (hg : c'.gen = c.gen)
    (hd : c.registeredDeps ⊆ c'.registeredDeps)
    (hl : ∀ cb ∈ c.listeners, cb ∈ c'.listeners) :
    GEff s (setCell s cid c') := by
  refine ⟨length_setCell s cid c', rfl, rfl, ?_, ?_, ?_, ?_⟩
  · intro x
    by_cases hx : cid = x
    · subst hx
      rw [snapshot_of_cell? (cell?_setCell_self c' h), snapshot_of_cell? h, hv]
    · simp [snapshot, cell?_setCell_ne s c' hx]
  · intro x
    by_cases hx : cid = x
    · subst hx
      rw [genOf_of_cell? (cell?_setCell_self c' h), genOf_of_cell? h, hg]
    · simp [genOf, cell?_setCell_ne s c' hx]
  · intro x
    by_cases hx : cid = x
    · subst hx
      rw [registeredDepsOf_of_cell? (cell?_setCell_self c' h), registeredDepsOf_of_cell? h]
      exact hd
    · simp [registeredDepsOf, cell?_setCell_ne s c' hx]
  · intro x cb
    by_cases hx : cid = x
    · subst hx
      rw [listenersOf_of_cell? (cell?_setCell_self c' h), listenersOf_of_cell? h]
      exact hl cb
    · simp [listenersOf, cell?_setCell_ne s c' hx]

theorem geff_subscribe [Inhabited V] (s : Sys V) (cid : Nat) (cb : Callback) :
    GEff s (subscribe s cid cb) := by
  unfold subscribe
  cases hc : s.cell? cid with
  | none => exact geff_refl s
  | some c =>
    by_cases hm : cb ∈ c.listeners
    · simp only [hm, if_true]
      exact geff_refl s
    · simp only [hm, if_false]
      exact geff_setCell hc rfl rfl (List.Subset.refl _)
        (fun x hx => List.mem_append_left _ hx)

theorem geff_addDep [Inhabited V] (s : Sys V) (sid dep : Nat) :
    GEff s (addDep s sid dep) := by
  unfold addDep
  cases hc : s.cell? sid with
  | none => exact geff_refl s
  | some c =>
    by_cases hd : dep ∈ c.registeredDeps
    · simp only [hd, if_true]
      exact geff_refl s
    · simp only [hd, if_false]
      have g1 : GEff s (subscribe s dep (Callback.sel sid)) := geff_subscribe s dep _
      cases hc1 : (subscribe s dep (Callback.sel sid)).cell? sid with
      | none => exact g1
      | some c1 =>
        exact geff_trans g1 (geff_setCell hc1 rfl rfl
          (fun x hx => List.mem_append_left _ hx) (fun x hx => hx))

/-- Everything a generator run can do to the state: grow dependency and
listener sets, nothing else. -/
theorem geff_evalGen [Inhabited V] (sid : Nat) (g : GenExp V) :
    ∀ s : Sys V, GEff s (evalGen sid s g).sys := by
  induction g with
  | const v => intro s; exact geff_refl s
  | get dep => intro s; exact geff_addDep s sid dep
  | thr => intro s; exact geff_refl s
  | bin f a b iha ihb =>
    intro s
    have ha := iha s
    cases hra : evalGen sid s a with
    | gexn s1 =>
      rw [hra] at ha
      simpa [evalGen, hra] using ha
    | gok va s1 =>
      rw [hra] at ha
      have hb := ihb s1
      cases hrb : evalGen sid s1 b with
      | gexn s2 =>
        rw [hrb] at hb
        simpa [evalGen, hra, hrb] using geff_trans ha hb
      | gok vb s2 =>
        rw [hrb] at hb
        simpa [evalGen, hra, hrb] using geff_trans ha hb
  | cond c p t e ihc iht ihe =>
    intro s
    have hc := ihc s
    cases hrc : evalGen sid s c with
    | gexn s1 =>
      rw [hrc] at hc
      simpa [evalGen, hrc] using hc
    | gok vc s1 =>
      rw [hrc] at hc
      by_cases hp : p vc
      · have ht := iht s1
        simpa [evalGen, hrc, hp] using geff_trans hc ht
      · have he := ihe s1
        simpa [evalGen, hrc, hp] using geff_trans hc he

theorem keeps_setVal (s : Sys V) (cid : Nat) (v : V) : Keeps s (setVal s cid v) := by
  unfold setVal
  cases hc : s.cell? cid with
  | none => exact keeps_refl s
  | some c =>
    constructor
    · intro x
      by_cases hx : cid = x
      · subst hx
        rw [registeredDepsOf_of_cell? (cell?_setCell_self _ hc), registeredDepsOf_of_cell? hc]
        exact List.Subset.refl _
      · simp [registeredDepsOf, cell?_setCell_ne s _ hx]
    · intro x sid
      by_cases hx : cid = x
      · subst hx
        rw [listenersOf_of_cell? (cell?_setCell_self _ hc), listenersOf_of_cell? hc]
        exact id
      · simp [listenersOf, cell?_setCell_ne s _ hx]

/-- Disconnecting an external callback never unsubscribes a selector hook
and never shrinks a dependency set. -/
theorem keeps_disconnect_ext (s : Sys V) (cid k : Nat) :
    Keeps s (disconnect s cid (Callback.ext k)) := by
  unfold disconnect
  cases hc : s.cell? cid with
  | none => exact keeps_refl s
  | some c =>
    constructor
    · intro x
      by_cases hx : cid = x
      · subst hx
        rw [registeredDepsOf_of_cell? (cell?_setCell_self _ hc), registeredDepsOf_of_cell? hc]
        exact List.Subset.refl _
      · simp [registeredDepsOf, cell?_setCell_ne s _ hx]
    · intro x sid
      by_cases hx : cid = x
      · subst hx
        rw [listenersOf_of_cell? (cell?_setCell_self _ hc), listenersOf_of_cell? hc]
        intro hm
        exact (List.mem_erase_of_ne (by simp)).mpr hm
      · simp [listenersOf, cell?_setCell_ne s _ hx]

theorem keepsR_trans {s s1 : Sys V} {r : Res V} (h1 : Keeps s s1) (h2 : KeepsR s1 r) :
    KeepsR s r := by
  cases r with
  | ok s2 => exact keeps_trans h1 h2
  | exn s2 => exact keeps_trans h1 h2
  | out => trivial

/-- Backbone of claim C9: no interpreter step ever removes a registered
dependency or unsubscribes a selector hook. -/
theorem keepsR_runT [DecidableEq V] [Inhabited V] (env : Nat → List (Action V)) :
    ∀ (f : Nat) (s : Sys V) (t : Task V), KeepsR s (runT env f s t) := by
  intro f
  induction f with
  | zero => intro s t; exact trivial
  | succ f ih =>
    intro s t
    cases t with
    | upd cid v =>
      simp only [runT]
      cases hc : s.cell? cid with
      | none => exact keeps_refl s
      | some c =>
        by_cases hv : c.value = v
        · simp only [hv, if_true]
          exact keeps_refl s
        · simp only [hv, if_false]
          exact keepsR_trans (keeps_setVal s cid v) (ih _ _)
    | emit cid =>
      simp only [runT]
      exact keepsR_trans (keeps_of_cells_eq rfl) (ih _ _)
    | cbs p l =>
      cases l with
      | nil => simp only [runT]; exact keeps_refl s
      | cons c rest =>
        simp only [runT]
        have h1 : Keeps s (logApp s (.inv p c)) := keeps_of_cells_eq rfl
        cases hr : runT env f (logApp s (.inv p c)) (.cb c) with
        | ok s1 =>
          have h2 := ih (logApp s (.inv p c)) (.cb c)
          rw [hr] at h2
          exact keepsR_trans (keeps_trans h1 h2) (ih s1 _)
        | exn s1 =>
          have h2 := ih (logApp s (.inv p c)) (.cb c)
          rw [hr] at h2
          exact keeps_trans h1 h2
        | out => exact trivial
    | cb c =>
      cases c with
      | sel sid => simp only [runT]; exact ih s (.updSel sid)
      | ext k => simp only [runT]; exact ih s (.acts (env k))
    | updSel sid =>
      simp only [runT]
      split
      next g hg =>
        split
        next v s1 he =>
          have hG := geff_evalGen sid g (logApp s (.genRun sid))
          rw [he] at hG
          exact keepsR_trans (keeps_trans (keeps_of_cells_eq rfl) hG.keeps) (ih s1 _)
        next s1 he =>
          have hG := geff_evalGen sid g (logApp s (.genRun sid))
          rw [he] at hG
          exact keeps_trans (keeps_of_cells_eq rfl) hG.keeps
      next hg => exact keeps_refl s
    | acts l =>
      cases l with
      | nil => simp only [runT]; exact keeps_refl s
      | cons a rest =>
        cases a with
        | set cid v =>
          simp only [runT]
          cases hr : runT env f s (.upd cid v) with
          | ok s1 =>
            have h2 := ih s (.upd cid v)
            rw [hr] at h2
            exact keepsR_trans h2 (ih s1 _)
          | exn s1 =>
            have h2 := ih s (.upd cid v)
            rw [hr] at h2
            exact h2
          | out => exact trivial
        | sub cid k =>
          simp only [runT]
          exact keepsR_trans (geff_subscribe s cid (.ext k)).keeps (ih _ _)
        | unsub cid k =>
          simp only [runT]
          exact keepsR_trans (keeps_disconnect_ext s cid k) (ih _ _)
        | thr => simp only [runT]; exact keeps_refl s

/-- Appending a fresh cell preserves every existing cell. -/
theorem cell?_append_new {s : Sys V} {x : Nat} (c : CellData V) (hx : x < s.cells.length) :
    (Sys.cell? { s with cells := s.cells ++ [c] } x) = s.cell? x := by
  simp [Sys.cell?, List.getElem?_append, hx]

theorem keeps_append_new (s : Sys V) (c : CellData V) :
    Keeps s { s with cells := s.cells ++ [c] } := by
  constructor
  · intro x
    by_cases hx : x < s.cells.length
    · simp [registeredDepsOf, cell?_append_new c hx]
    · have : s.cell? x = none := by
        simp [Sys.cell?, List.getElem?_eq_none (Nat.le_of_not_lt hx)]
      simp [registeredDepsOf, this]
  · intro x sid
    by_cases hx : x < s.cells.length
    · simp [listenersOf, cell?_append_new c hx]
    · have : s.cell? x = none := by
        simp [Sys.cell?, List.getElem?_eq_none (Nat.le_of_not_lt hx)]
      simp [listenersOf, this]

theorem keeps_mkAtom (s : Sys V) (v : V) : Keeps s (mkAtom s v) :=
  keeps_append_new s _

theorem keepsR_mkSelector [Inhabited V] (s : Sys V) (g : GenExp V) :
    KeepsR s (mkSelector s g) := by
  unfold mkSelector
  have h1 : Keeps s (logApp { s with cells := s.cells ++ [⟨default, [], some g, []⟩] }
      (.genRun s.cells.length)) :=
    keeps_trans (keeps_append_new s _) (keeps_of_cells_eq rfl)
  have hG := geff_evalGen s.cells.length g
    (logApp { s with cells := s.cells ++ [⟨default, [], some g, []⟩] } (.genRun s.cells.length))
  split
  next v s2 he =>
    rw [he] at hG
    exact keeps_trans (keeps_trans h1 hG.keeps) (keeps_setVal s2 _ v)
  next s2 he =>
    rw [he] at hG
    exact keeps_trans h1 hG.keeps

/-! ### Pass accounting

`Stateful.emit` captures `Array.from(this.listeners)` once and then
iterates that snapshot; each emit is instrumented with a fresh pass id.
The lemmas below show that the invocation records carrying a given pass
id are exactly the snapshot taken when that pass started — nested
(re-entrant) activity only ever logs invocation records under larger
pass ids. -/

theorem dok_nil {n : Nat} {p? : Option Nat} : DOk n p? ([] : List Ev) := by
  intro q cb h
  simp at h

theorem dok_append {n : Nat} {p? : Option Nat} {d1 d2 : List Ev}
    (h1 : DOk n p? d1) (h2 : DOk n p? d2) : DOk n p? (d1 ++ d2) := by
  intro q cb h
  rcases List.mem_append.mp h with h | h
  · exact h1 q cb h
  · exact h2 q cb h

theorem dok_mono_n {n n' : Nat} {p? : Option Nat} {d : List Ev}
    (hle : n' ≤ n) (h : DOk n p? d) : DOk n' p? d := by
  intro q cb hm
  rcases h q cb hm with h | h
  · exact Or.inl (le_trans hle h)
  · exact Or.inr h

theorem dok_of_none {n : Nat} {p? : Option Nat} {d : List Ev}
    (h : DOk n none d) : DOk n p? d := by
  intro q cb hm
  rcases h q cb hm with h | h
  · exact Or.inl h
  · exact absurd h (by simp)

theorem dok_single_inv {n p : Nat} {cb : Callback} : DOk n (some p) [Ev.inv p cb] := by
  intro q cb2 hm
  rw [List.mem_singleton] at hm
  cases hm
  exact Or.inr rfl

theorem dok_single_genRun {n : Nat} {p? : Option Nat} {sid : Nat} :
    DOk n p? [Ev.genRun sid] := by
  intro q cb hm
  rw [List.mem_singleton] at hm
  cases hm

theorem dok_emit_shift {n : Nat} {p? : Option Nat} {d : List Ev}
    (h : DOk (n + 1) (some n) d) : DOk n p? d := by
  intro q cb hm
  rcases h q cb hm with h | h
  · exact Or.inl (le_trans (Nat.le_succ n) h)
  · cases Option.some.inj h
    exact Or.inl (le_refl n)

theorem evo_refl {p? : Option Nat} (s : Sys V) : Evo p? s s :=
  ⟨le_refl _, [], (List.append_nil _).symm, dok_nil⟩

theorem evo_of_same {p? : Option Nat} {s s' : Sys V}
    (hl : s'.log = s.log) (hn : s'.nextPass = s.nextPass) : Evo p? s s' :=
  ⟨le_of_eq hn.symm, [], by rw [hl, List.append_nil], dok_nil⟩

theorem evo_trans {p? : Option Nat} {s s1 s2 : Sys V}
    (h1 : Evo p? s s1) (h2 : Evo p? s1 s2) : Evo p? s s2 := by
  obtain ⟨hn1, d1, hd1, hk1⟩ := h1
  obtain ⟨hn2, d2, hd2, hk2⟩ := h2
  exact ⟨le_trans hn1 hn2, d1 ++ d2, by rw [hd2, hd1, List.append_assoc],
    dok_append hk1 (dok_mono_n hn1 hk2)⟩

theorem evo_weaken {p? : Option Nat} {s s' : Sys V} (h : Evo none s s') : Evo p? s s' := by
  obtain ⟨hn, d, hd, hk⟩ := h
  exact ⟨hn, d, hd, dok_of_none hk⟩

theorem evoR_trans {p? : Option Nat} {s s1 : Sys V} {r : Res V}
    (h1 : Evo p? s s1) (h2 : EvoR p? s1 r) : EvoR p? s r := by
  cases r with
  | ok s2 => exact evo_trans h1 h2
  | exn s2 => exact evo_trans h1 h2
  | out => exact trivial

theorem evoR_weaken {p? : Option Nat} {s : Sys V} {r : Res V}
    (h : EvoR none s r) : EvoR p? s r := by
  cases r with
  | ok s2 => exact evo_weaken h
  | exn s2 => exact evo_weaken h
  | out => exact trivial

theorem setVal_log (s : Sys V) (cid : Nat) (v : V) : (setVal s cid v).log = s.log := by
  unfold setVal
  cases s.cell? cid <;> rfl

theorem setVal_nextPass (s : Sys V) (cid : Nat) (v : V) :
    (setVal s cid v).nextPass = s.nextPass := by
  unfold setVal
  cases s.cell? cid <;> rfl

theorem subscribe_log (s : Sys V) (cid : Nat) (cb : Callback) :
    (subscribe s cid cb).log = s.log := by
  unfold subscribe
  cases s.cell? cid with
  | none => rfl
  | some c => by_cases hm : cb ∈ c.listeners <;> simp [hm, setCell]

theorem subscribe_nextPass (s : Sys V) (cid : Nat) (cb : Callback) :
    (subscribe s cid cb).nextPass = s.nextPass := by
  unfold subscribe
  cases s.cell? cid with
  | none => rfl
  | some c => by_cases hm : cb ∈ c.listeners <;> simp [hm, setCell]

theorem disconnect_log (s : Sys V) (cid : Nat) (cb : Callback) :
    (disconnect s cid cb).log = s.log := by
  unfold disconnect
  cases s.cell? cid <;> rfl

theorem disconnect_nextPass (s : Sys V) (cid : Nat) (cb : Callback) :
    (disconnect s cid cb).nextPass = s.nextPass := by
  unfold disconnect
  cases s.cell? cid <;> rfl

/-- Log-evolution invariant of the interpreter: every function appends
only invocation records of passes that had not started yet — except the
`cbs` loop, which also appends records of its own pass. -/
theorem evoR_runT [DecidableEq V] [Inhabited V] (env : Nat → List (Action V)) :
    ∀ (f : Nat) (s : Sys V) (t : Task V), EvoR (cbsPid t) s (runT env f s t) := by
  intro f
  induction f with
  | zero => intro s t; exact trivial
  | succ f ih =>
    intro s t
    cases t with
    | upd cid v =>
      simp only [runT]
      cases hc : s.cell? cid with
      | none => exact evo_refl s
      | some c =>
        by_cases hv : c.value = v
        · simp only [hv, if_true]
          exact evo_refl s
        · simp only [hv, if_false]
          exact evoR_trans (evo_of_same (setVal_log s cid v) (setVal_nextPass s cid v))
            (ih _ (.emit cid))
    | emit cid =>
      simp only [runT]
      have h := ih { s with nextPass := s.nextPass + 1 } (.cbs s.nextPass (listenersOf s cid))
      cases hr : runT env f { s with nextPass := s.nextPass + 1 }
          (.cbs s.nextPass (listenersOf s cid)) with
      | ok s1 =>
        rw [hr] at h
        obtain ⟨hn, d, hd, hk⟩ := h
        exact ⟨le_trans (Nat.le_succ _) hn, d, hd, dok_emit_shift hk⟩
      | exn s1 =>
        rw [hr] at h
        obtain ⟨hn, d, hd, hk⟩ := h
        exact ⟨le_trans (Nat.le_succ _) hn, d, hd, dok_emit_shift hk⟩
      | out => exact trivial
    | cbs p l =>
      cases l with
      | nil => simp only [runT]; exact evo_refl s
      | cons c rest =>
        simp only [runT]
        have h1 : Evo (some p) s (logApp s (.inv p c)) :=
          ⟨le_refl _, [Ev.inv p c], rfl, dok_single_inv⟩
        cases hr : runT env f (logApp s (.inv p c)) (.cb c) with
        | ok s1 =>
          have h2 := ih (logApp s (.inv p c)) (.cb c)
          rw [hr] at h2
          have h2w : Evo (some p) (logApp s (.inv p c)) s1 := evo_weaken h2
          exact evoR_trans (evo_trans h1 h2w) (ih s1 (.cbs p rest))
        | exn s1 =>
          have h2 := ih (logApp s (.inv p c)) (.cb c)
          rw [hr] at h2
          exact evo_trans h1 (evo_weaken h2)
        | out => exact trivial
    | cb c =>
      cases c with
      | sel sid => simp only [runT]; exact ih s (.updSel sid)
      | ext k => simp only [runT]; exact ih s (.acts (env k))
    | updSel sid =>
      simp only [runT]
      split
      next g hg =>
        split
        next v s1 he =>
          have hG := geff_evalGen sid g (logApp s (.genRun sid))
          rw [he] at hG
          have hlog : Evo none s (logApp s (.genRun sid)) :=
            ⟨le_refl _, [Ev.genRun sid], rfl, dok_single_genRun⟩
          have hev : Evo none (logApp s (.genRun sid)) s1 :=
            evo_of_same (show s1.log = (logApp s (.genRun sid)).log from hG.log)
              (show s1.nextPass = (logApp s (.genRun sid)).nextPass from hG.npass)
          exact evoR_trans (evo_trans hlog hev) (ih s1 (.upd sid v))
        next s1 he =>
          have hG := geff_evalGen sid g (logApp s (.genRun sid))
          rw [he] at hG
          have hlog : Evo none s (logApp s (.genRun sid)) :=
            ⟨le_refl _, [Ev.genRun sid], rfl, dok_single_genRun⟩
          have hev : Evo none (logApp s (.genRun sid)) s1 :=
            evo_of_same (show s1.log = (logApp s (.genRun sid)).log from hG.log)
              (show s1.nextPass = (logApp s (.genRun sid)).nextPass from hG.npass)
          exact evo_trans hlog hev
      next hg => exact evo_refl s
    | acts l =>
      cases l with
      | nil => simp only [runT]; exact evo_refl s
      | cons a rest =>
        cases a with
        | set cid v =>
          simp only [runT]
          cases hr : runT env f s (.upd cid v) with
          | ok s1 =>
            have h2 := ih s (.upd cid v)
            rw [hr] at h2
            exact evoR_trans h2 (ih s1 (.acts rest))
          | exn s1 =>
            have h2 := ih s (.upd cid v)
            rw [hr] at h2
            exact h2
          | out => exact trivial
        | sub cid k =>
          simp only [runT]
          exact evoR_trans (evo_of_same (subscribe_log s cid _) (subscribe_nextPass s cid _))
            (ih _ (.acts rest))
        | unsub cid k =>
          simp only [runT]
          exact evoR_trans (evo_of_same (disconnect_log s cid _) (disconnect_nextPass s cid _))
            (ih _ (.acts rest))
        | thr => simp only [runT]; exact evo_refl s

/-- Invocation records of passes that have not started yet cannot carry
an already-used pass id. -/
theorem filter_isInv_nil_of_dok {p n : Nat} {d : List Ev}
    (hpn : p < n) (h : DOk n none d) : d.filter (isInv p) = [] := by
  rw [List.filter_eq_nil_iff]
  intro e he
  cases e with
  | inv q cb =>
    rcases h q cb he with hq | hq
    · have : q ≠ p := by omega
      simp [isInv, this]
    · exact absurd hq (by simp)
  | genRun sid => simp [isInv]

/-- The `cbs` loop over the captured listener snapshot appends exactly one
invocation record per captured callback under its own pass id, in order —
no matter what the callbacks themselves do to the state, provided none of
them throws. -/
theorem cbs_pass_log [DecidableEq V] [Inhabited V] (env : Nat → List (Action V)) :
    ∀ (l : List Callback) (f : Nat) (s : Sys V) (p : Nat) (s' : Sys V),
      runT env f s (.cbs p l) = .ok s' → p < s.nextPass →
      s'.log.filter (isInv p) = s.log.filter (isInv p) ++ l.map (Ev.inv p) ∧
      p < s'.nextPass := by
  intro l
  induction l with
  | nil =>
    intro f s p s' h hp
    cases f with
    | zero => simp [runT] at h
    | succ f =>
      simp only [runT] at h
      cases h
      simpa using hp
  | cons c rest ih =>
    intro f s p s' h hp
    cases f with
    | zero => simp [runT] at h
    | succ f =>
      simp only [runT] at h
      cases hr : runT env f (logApp s (.inv p c)) (.cb c) with
      | ok s1 =>
        rw [hr] at h
        have h2 := evoR_runT env f (logApp s (.inv p c)) (.cb c)
        rw [hr] at h2
        obtain ⟨hn, d, hd, hk⟩ := h2
        have hfd : d.filter (isInv p) = [] := filter_isInv_nil_of_dok hp hk
        have hf1 : s1.log.filter (isInv p) = s.log.filter (isInv p) ++ [Ev.inv p c] := by
          rw [hd]
          show ((s.log ++ [Ev.inv p c]) ++ d).filter (isInv p) = _
          rw [List.filter_append, List.filter_append, hfd, List.append_nil]
          congr 1
          simp [isInv]
        have hp1 : p < s1.nextPass := lt_of_lt_of_le hp hn
        obtain ⟨hrec, hp2⟩ := ih f s1 p s' h hp1
        refine ⟨?_, hp2⟩
        rw [hrec, hf1, List.map_cons, List.append_assoc]
        rfl
      | exn s1 =>
        rw [hr] at h
        cases h
      | out =>
        rw [hr] at h
        cases h

/-! ### Computing a full notification pass over passive observers -/

theorem runT_upd_step [DecidableEq V] [Inhabited V] (env : Nat → List (Action V))
    (f : Nat) (s : Sys V) (cid : Nat) (v : V) :
    runT env (f + 1) s (.upd cid v) =
      match s.cell? cid with
      | some c => if c.value = v then .ok s else runT env f (setVal s cid v) (.emit cid)
      | none => .ok s := rfl

theorem runT_emit_step [DecidableEq V] [Inhabited V] (env : Nat → List (Action V))
    (f : Nat) (s : Sys V) (cid : Nat) :
    runT env (f + 1) s (.emit cid) =
      runT env f { s with nextPass := s.nextPass + 1 } (.cbs s.nextPass (listenersOf s cid)) :=
  rfl

theorem runT_cbs_nil [DecidableEq V] [Inhabited V] (env : Nat → List (Action V))
    (f : Nat) (s : Sys V) (p : Nat) :
    runT env (f + 1) s (.cbs p []) = .ok s := rfl

theorem runT_cbs_cons [DecidableEq V] [Inhabited V] (env : Nat → List (Action V))
    (f : Nat) (s : Sys V) (p : Nat) (c : Callback) (rest : List Callback) :
    runT env (f + 1) s (.cbs p (c :: rest)) =
      match runT env f (logApp s (.inv p c)) (.cb c) with
      | .ok s1 => runT env f s1 (.cbs p rest)
      | r => r := rfl

theorem runT_cb_ext [DecidableEq V] [Inhabited V] (env : Nat → List (Action V))
    (f : Nat) (s : Sys V) (k : Nat) :
    runT env (f + 1) s (.cb (.ext k)) = runT env f s (.acts (env k)) := rfl

theorem runT_cb_sel [DecidableEq V] [Inhabited V] (env : Nat → List (Action V))
    (f : Nat) (s : Sys V) (sid : Nat) :
    runT env (f + 1) s (.cb (.sel sid)) = runT env f s (.updSel sid) := rfl

theorem runT_acts_nil [DecidableEq V] [Inhabited V] (env : Nat → List (Action V))
    (f : Nat) (s : Sys V) :
    runT env (f + 1) s (.acts []) = .ok s := rfl

theorem runT_updSel_step [DecidableEq V] [Inhabited V] (env : Nat → List (Action V))
    (f : Nat) (s : Sys V) (sid : Nat) :
    runT env (f + 1) s (.updSel sid) =
      match genOf s sid with
      | some g =>
        match evalGen sid (logApp s (.genRun sid)) g with
        | .gok v s1 => runT env f s1 (.upd sid v)
        | .gexn s1 => .exn s1
      | none => .ok s := rfl

theorem setCell_restore {s : Sys V} {cid : Nat} {c : CellData V}
    (h : s.cell? cid = some c) : setCell s cid c = s := by
  have hcells : s.cells.set cid c = s.cells := by
    apply List.ext_getElem?
    intro n
    rw [List.getElem?_set]
    by_cases hn : cid = n
    · subst hn
      rw [if_pos rfl, if_pos (cell?_lt h)]
      exact h.symm
    · rw [if_neg hn]
  show { s with cells := s.cells.set cid c } = s
  rw [hcells]

/-- Iterating the captured snapshot over passive observers succeeds and
appends exactly one invocation record per observer, in order, changing
nothing else. -/
theorem cbs_passive [DecidableEq V] [Inhabited V] (env : Nat → List (Action V)) :
    ∀ (l : List Callback) (f : Nat) (s : Sys V) (p : Nat),
      (∀ cb ∈ l, Passive env cb) → l.length + 2 ≤ f →
      runT env f s (.cbs p l) = .ok { s with log := s.log ++ l.map (Ev.inv p) } := by
  intro l
  induction l with
  | nil =>
    intro f s p hp hf
    obtain ⟨f1, rfl⟩ : ∃ f1, f = f1 + 1 := ⟨f - 1, by omega⟩
    rw [runT_cbs_nil]
    simp only [List.map_nil, List.append_nil]
  | cons c rest ih =>
    intro f s p hp hf
    obtain ⟨f3, rfl⟩ : ∃ f3, f = f3 + 1 + 1 + 1 := ⟨f - 3, by simp at hf; omega⟩
    obtain ⟨k, rfl, hk⟩ := hp c (List.mem_cons_self c rest)
    rw [runT_cbs_cons]
    have hcb : runT env (f3 + 1 + 1) (logApp s (.inv p (.ext k))) (.cb (.ext k)) =
        .ok (logApp s (.inv p (.ext k))) := by
      rw [runT_cb_ext, hk, runT_acts_nil]
    simp only [hcb]
    have hrest := ih (f3 + 1 + 1) (logApp s (.inv p (.ext k))) p
      (fun cb hm => hp cb (List.mem_cons_of_mem _ hm)) (by simp at hf; omega)
    rw [hrest]
    simp only [logApp, List.map_cons, List.append_assoc, List.singleton_append]

/-- `Atom.setState` on a reference-distinct value over passive observers:
the value is replaced, the pass invokes each subscriber exactly once (in
subscription order), and the subscriber set is untouched. -/
theorem setState_passive_run [DecidableEq V] [Inhabited V] (env : Nat → List (Action V))
    {s : Sys V} {cid : Nat} {c : CellData V} {v2 : V} {f : Nat}
    (hc : s.cell? cid = some c) (hv : c.value ≠ v2)
    (hpas : ∀ cb ∈ c.listeners, Passive env cb)
    (hf : c.listeners.length + 4 ≤ f) :
    setState env f s cid v2 =
      .ok { cells := s.cells.set cid { c with value := v2 },
            nextPass := s.nextPass + 1,
            log := s.log ++ c.listeners.map (Ev.inv s.nextPass) } := by
  obtain ⟨f2, rfl⟩ : ∃ f2, f = f2 + 1 + 1 := ⟨f - 2, by omega⟩
  show runT env (f2 + 1 + 1) s (.upd cid v2) = _
  rw [runT_upd_step]
  simp only [hc]
  rw [if_neg hv]
  rw [setVal_of_cell? hc v2]
  rw [runT_emit_step]
  rw [listenersOf_of_cell? (cell?_setCell_self _ hc)]
  rw [cbs_passive env c.listeners f2 _ _ (fun cb hm => hpas cb hm) (by omega)]
  rfl

/-- `Atom.setState` with the current value (reference-equal) is a complete
no-op: the state — value, listeners, log — is returned unchanged. -/
theorem setState_noop_run [DecidableEq V] [Inhabited V] (env : Nat → List (Action V))
    {s : Sys V} {cid : Nat} {c : CellData V} {v : V} {f : Nat}
    (hc : s.cell? cid = some c) (hv : c.value = v) (hf : 1 ≤ f) :
    setState env f s cid v = .ok s := by
  obtain ⟨f1, rfl⟩ : ∃ f1, f = f1 + 1 := ⟨f - 1, by omega⟩
  show runT env (f1 + 1) s (.upd cid v) = _
  rw [runT_upd_step]
  simp only [hc]
  rw [if_pos hv]

theorem invCount_append (l1 l2 : List Ev) (cb : Callback) :
    invCount (l1 ++ l2) cb = invCount l1 cb + invCount l2 cb :=
  List.countP_append _ _ _

theorem invCount_map_inv (l : List Callback) (p : Nat) (cb : Callback) :
    invCount (l.map (Ev.inv p)) cb = l.count cb := by
  rw [invCount, List.countP_map]
  rfl

/-! ### The claims -/

/-- C1 (amended): for a Mutable Cell whose current value `v` differs
(reference-wise) from `v2` and all of whose subscribers are passive
observers, `setState(v2)` completes normally, replaces the stored value
so that `snapshot()` returns `v2`, leaves the subscriber set unchanged,
and the notification pass appends exactly one invocation record per
subscribed callback, in subscription order.  (As stated, the claim fails
when a subscriber throws — later subscribers of the pass are skipped —
or re-entrantly replaces the value, see the counterexample.) -/
theorem claimC1 [DecidableEq V] [Inhabited V] (env : Nat → List (Action V))
    {s : Sys V} {cid : Nat} {c : CellData V} {v2 : V} {f : Nat}
    (hc : s.cell? cid = some c) (hv : c.value ≠ v2)
    (hpas : ∀ cb ∈ c.listeners, Passive env cb)
    (hf : c.listeners.length + 4 ≤ f) :
    setState env f s cid v2 =
      .ok { cells := s.cells.set cid { c with value := v2 },
            nextPass := s.nextPass + 1,
            log := s.log ++ c.listeners.map (Ev.inv s.nextPass) } ∧
    snapshot (setState env f s cid v2).sys cid = v2 ∧
    listenersOf (setState env f s cid v2).sys cid = c.listeners := by
  have hrun := setState_passive_run env hc hv hpas hf
  have hcell : (setState env f s cid v2).sys.cell? cid = some { c with value := v2 } := by
    rw [hrun]
    show (s.cells.set cid { c with value := v2 })[cid]? = _
    exact List.getElem?_set_eq_of_lt _ (cell?_lt hc)
  have hsnap := snapshot_of_cell? hcell
  have hl := listenersOf_of_cell? hcell
  exact ⟨hrun, hsnap, hl⟩

/-- C1 counterexample to the claim as stated: under `env1`, subscriber
`ext 0` of `c1a` throws, so `setState` propagates the exception and the
also-subscribed `ext 1` is invoked zero times, not exactly once; and the
single subscriber of `c1b` re-entrantly calls `setState(77)`, so after
`setState(5)` completes, `snapshot()` returns 77, not the `v2 = 5` that
was set. -/
theorem claimC1_counterexample :
    (setState env1 9 c1a 0 1).isExn = true ∧
    (setState env1 9 c1a 0 1).sys.log = [Ev.inv 0 (Callback.ext 0)] ∧
    Callback.ext 1 ∈ listenersOf c1a 0 ∧
    (setState env1 20 c1b 0 5).isOk = true ∧
    snapshot (setState env1 20 c1b 0 5).sys 0 = 77 := by decide

/-- C1 witness: the amended claim at a concrete input — one passive
subscriber, value 1 replaced by 5, exactly one invocation record logged. -/
theorem claimC1_witness :
    setState env1 9 w1sys 0 5 =
      .ok { cells := [⟨5, [.ext 1], none, []⟩], nextPass := 1,
            log := [.inv 0 (.ext 1)] } ∧
    snapshot (setState env1 9 w1sys 0 5).sys 0 = 5 ∧
    listenersOf (setState env1 9 w1sys 0 5).sys 0 = [.ext 1] :=
  @claimC1 Nat _ _ env1 w1sys 0 ⟨1, [.ext 1], none, []⟩ 5 9 rfl (by decide)
    (by intro cb hm; rw [List.mem_singleton] at hm; exact ⟨1, hm, rfl⟩) (by decide)

/-- C2 (confirmed): `setState` with a reference-equal value is a complete
no-op — the returned state is the input state itself: the stored value is
unchanged, no subscriber is invoked (no invocation record is appended),
because `Stateful.update` gates on `this.value !== value`. -/
theorem claimC2 [DecidableEq V] [Inhabited V] (env : Nat → List (Action V))
    {s : Sys V} {cid : Nat} {c : CellData V} {v : V} {f : Nat}
    (hc : s.cell? cid = some c) (hv : c.value = v) (hf : 1 ≤ f) :
    setState env f s cid v = .ok s :=
  setState_noop_run env hc hv hf

/-- C2 witness: setting 5 on an atom whose value is already 5 returns the
state unchanged. -/
theorem claimC2_witness : setState env1 3 w2sys 0 5 = .ok w2sys :=
  @claimC2 Nat _ _ env1 w2sys 0 ⟨5, [.ext 0], none, []⟩ 5 3 rfl rfl (by decide)

/-- C3 (confirmed): `Selector.addDep` subscribes to a dependency at most
once.  A read of an already-registered dependency changes nothing at all;
the first read of a fresh dependency appends exactly one hook to the
dependency's subscriber list (its subscriber count grows by exactly 1)
and records the dependency; and the read capability returns the
dependency's current snapshot. -/
theorem claimC3 [Inhabited V]
    {s : Sys V} {sid dep : Nat} {c cd : CellData V}
    (hc : s.cell? sid = some c) (hcd : s.cell? dep = some cd) (hne : sid ≠ dep) :
    (dep ∈ c.registeredDeps → addDep s sid dep = s) ∧
    (dep ∉ c.registeredDeps → Callback.sel sid ∉ cd.listeners →
      listenersOf (addDep s sid dep) dep = cd.listeners ++ [Callback.sel sid] ∧
      registeredDepsOf (addDep s sid dep) sid = c.registeredDeps ++ [dep] ∧
      (listenersOf (addDep s sid dep) dep).count (Callback.sel sid) =
        cd.listeners.count (Callback.sel sid) + 1) ∧
    (∀ s0 : Sys V, evalGen sid s0 (.get dep) =
      .gok (snapshot (addDep s0 sid dep) dep) (addDep s0 sid dep)) := by
  refine ⟨?_, ?_, fun s0 => rfl⟩
  · intro hd
    simp only [addDep, hc]
    rw [if_pos hd]
  · intro hd hcb
    have hsub : (subscribe s dep (Callback.sel sid)).cell? sid = some c := by
      unfold subscribe
      simp only [hcd]
      rw [if_neg hcb, cell?_setCell_ne _ _ (Ne.symm hne)]
      exact hc
    have hsubdep : (subscribe s dep (Callback.sel sid)).cell? dep =
        some { cd with listeners := cd.listeners ++ [Callback.sel sid] } := by
      unfold subscribe
      simp only [hcd]
      rw [if_neg hcb]
      exact cell?_setCell_self _ hcd
    have heq : addDep s sid dep = setCell (subscribe s dep (Callback.sel sid)) sid
        { c with registeredDeps := c.registeredDeps ++ [dep] } := by
      simp only [addDep, hc]
      rw [if_neg hd]
      simp only [hsub]
    have hldep : listenersOf (addDep s sid dep) dep =
        cd.listeners ++ [Callback.sel sid] := by
      rw [heq]
      rw [listenersOf_of_cell? (by rw [cell?_setCell_ne _ _ hne]; exact hsubdep)]
    refine ⟨hldep, ?_, ?_⟩
    · rw [heq, registeredDepsOf_of_cell? (cell?_setCell_self _ hsub)]
    · rw [hldep, List.count_append]
      simp

/-- C3 witness: in `w3sys` the selector (cell 1) reads the atom (cell 0)
for the first time — the atom's subscriber list gains exactly the hook,
and the dependency is recorded. -/
theorem claimC3_witness :
    listenersOf (addDep w3sys 1 0) 0 = [] ++ [Callback.sel 1] ∧
    registeredDepsOf (addDep w3sys 1 0) 1 = [] ++ [0] := by
  have h := @claimC3 Nat _ w3sys 1 0 ⟨0, [], some (.get 0), []⟩ ⟨5, [], none, []⟩ rfl rfl
    (by decide)
  exact ⟨(h.2.1 (by decide) (by decide)).1, (h.2.1 (by decide) (by decide)).2.1⟩

/-- C4 (confirmed): the concrete `age`/`name`/`info` program.  `info`
initially reads `"John is 20"`; `name.setState("Sarah")` returns with the
selector already recomputed to `"Sarah is 20"` (propagation is
synchronous — the final state is the value returned by `setState`
itself); `age.setState(30)` likewise yields `"Sarah is 30"`. -/
theorem claimC4 :
    snapshot c4sys1 2 = .s "John is 20" ∧
    (setState envNilJ 20 c4sys1 1 (.s "Sarah")).isOk = true ∧
    snapshot c4sys2 2 = .s "Sarah is 20" ∧
    (setState envNilJ 20 c4sys2 0 (.n 30)).isOk = true ∧
    snapshot c4sys3 2 = .s "Sarah is 30" := by decide

theorem disconnect_of_cell? {s : Sys V} {cid : Nat} {c : CellData V}
    (h : s.cell? cid = some c) (cb : Callback) :
    disconnect s cid cb = setCell s cid { c with listeners := c.listeners.erase cb } := by
  unfold disconnect
  simp only [h]

/-- C5 (confirmed): constructing a Derived Cell runs its generator exactly
once, synchronously: when the generator returns `v`, the constructor
returns the state with `v` assigned directly to the new cell (readable
via `snapshot` immediately, no `setState` involved), and the only event
appended to the log is the single generator run — in particular no
invocation record, i.e. no notification, is emitted, bypassing the
equality-gated `update` path. -/
theorem claimC5 [Inhabited V] {s : Sys V} {g : GenExp V} {v : V} {s2 : Sys V}
    (he : evalGen s.cells.length
        (logApp { s with cells := s.cells ++ [⟨default, [], some g, []⟩] }
          (.genRun s.cells.length)) g = .gok v s2) :
    mkSelector s g = .ok (setVal s2 s.cells.length v) ∧
    snapshot (setVal s2 s.cells.length v) s.cells.length = v ∧
    (setVal s2 s.cells.length v).log = s.log ++ [Ev.genRun s.cells.length] := by
  have hG := geff_evalGen s.cells.length g
    (logApp { s with cells := s.cells ++ [⟨default, [], some g, []⟩] } (.genRun s.cells.length))
  rw [he] at hG
  have hlen : s2.cells.length = s.cells.length + 1 := by
    have h := hG.len
    simpa [logApp] using h
  have hlt : s.cells.length < s2.cells.length := by omega
  obtain ⟨c2, hc2⟩ : ∃ c2, s2.cell? s.cells.length = some c2 :=
    ⟨s2.cells[s.cells.length], List.getElem?_eq_getElem hlt⟩
  refine ⟨?_, ?_, ?_⟩
  · simp only [mkSelector, he]
  · rw [setVal_of_cell? hc2, snapshot_of_cell? (cell?_setCell_self _ hc2)]
  · rw [setVal_log]
    exact hG.log

/-- C5 witness: the spec's own example — a selector over an atom with
value 5 whose generator computes `get(A) + 1`; its snapshot is 6
immediately after construction and exactly one generator run is logged. -/
theorem claimC5_witness :
    mkSelector w5sys w5gen = .ok (setVal w5mid 1 6) ∧
    snapshot (setVal w5mid 1 6) 1 = 6 ∧
    (setVal w5mid 1 6).log = w5sys.log ++ [Ev.genRun 1] :=
  @claimC5 Nat _ w5sys w5gen 6 w5mid rfl

/-- C6 (amended): when a Derived Cell's generator throws during a
recomputation, the recomputation returns the exception (which the
notification machinery propagates to the `setState` caller, as the
counterexample shows end to end), the cell's prior value is unchanged,
and every previously registered dependency and subscription is retained —
but the dependency set may have grown: dependencies newly read before the
throw remain registered and subscribed (this is what refutes the claim's
"subscriptions remain unchanged", see the counterexample). -/
theorem claimC6 [DecidableEq V] [Inhabited V] (env : Nat → List (Action V))
    {s : Sys V} {sid : Nat} {g : GenExp V} {s1 : Sys V} {f : Nat}
    (hg : genOf s sid = some g)
    (he : evalGen sid (logApp s (.genRun sid)) g = .gexn s1) :
    runT env (f + 1) s (.updSel sid) = .exn s1 ∧
    snapshot s1 sid = snapshot s sid ∧
    (∀ x, registeredDepsOf s x ⊆ registeredDepsOf s1 x) ∧
    (∀ x cb, cb ∈ listenersOf s x → cb ∈ listenersOf s1 x) := by
  have hG := geff_evalGen sid g (logApp s (.genRun sid))
  rw [he] at hG
  refine ⟨?_, ?_, ?_, ?_⟩
  · rw [runT_updSel_step]
    simp only [hg, he]
  · exact hG.snap sid
  · exact hG.deps
  · exact hG.lmem

/-- C6 counterexample to the claim as stated: in `c6s0` the selector
(cell 2) depends only on cell 0.  Setting cell 0 to 0 makes the
recomputation read cell 1 — a fresh dependency, subscribed on the spot —
and then throw: `setState` surfaces the exception, the selector's value
is still 7, but its subscription set has changed, from `[0]` to `[0, 1]`. -/
theorem claimC6_counterexample :
    (setState env1 9 c6s0 0 0).isExn = true ∧
    registeredDepsOf c6s0 2 = [0] ∧
    registeredDepsOf (setState env1 9 c6s0 0 0).sys 2 = [0, 1] ∧
    snapshot (setState env1 9 c6s0 0 0).sys 2 = 7 := by decide

/-- C6 witness: the amended claim at the concrete throwing recomputation
of `c6w`: the exception propagates out of `updateSelector` and the
selector's value is unchanged (7). -/
theorem claimC6_witness :
    runT env1 (5 + 1) c6w (.updSel 2) = .exn c6w1 ∧
    snapshot c6w1 2 = snapshot c6w 2 := by
  have h := @claimC6 Nat _ _ env1 c6w 2 c6gen c6w1 5 rfl rfl
  exact ⟨h.1, h.2.1⟩

/-- C7 (confirmed): the set of callbacks a notification pass invokes is
exactly the subscriber list captured when the emit started: whenever an
emit completes normally, the invocation records carrying its pass id are
precisely one per captured subscriber, in order — regardless of what the
subscribers do meanwhile (re-entrant `setState`, subscribing,
unsubscribing): nested activity is logged under later pass ids and
cannot add to, remove from, or duplicate this pass's records. -/
theorem claimC7 [DecidableEq V] [Inhabited V] (env : Nat → List (Action V))
    {f : Nat} {s : Sys V} {cid : Nat} {s' : Sys V}
    (h : runT env f s (.emit cid) = .ok s')
    (hfresh : s.log.filter (isInv s.nextPass) = []) :
    s'.log.filter (isInv s.nextPass) = (listenersOf s cid).map (Ev.inv s.nextPass) := by
  cases f with
  | zero => simp [runT] at h
  | succ f1 =>
    rw [runT_emit_step] at h
    obtain ⟨hfil, h2⟩ := cbs_pass_log env (listenersOf s cid) f1
      { s with nextPass := s.nextPass + 1 } s.nextPass s' h (Nat.lt_succ_self _)
    rw [hfil, show ({ s with nextPass := s.nextPass + 1 } : Sys V).log = s.log from rfl,
      hfresh, List.nil_append]

/-- C7 witness: on `c7s0`, whose first subscriber re-entrantly sets the
cell mid-pass (spawning nested pass 1), pass 0 still invokes exactly the
two subscribers captured at its start, once each, in order. -/
theorem claimC7_witness :
    c7sFinal.log.filter (isInv 0) = (listenersOf c7s0 0).map (Ev.inv 0) :=
  @claimC7 Nat _ _ env7 20 c7s0 0 c7sFinal rfl rfl

/-- C8 (amended): provided `cb` was not already subscribed,
subscribe-then-disconnect restores the state exactly (so the subscriber
count returns to its pre-subscribe value); a disconnect whose callback is
absent — in particular a second invocation of the same handle — is a
total no-op that removes nothing (and, being a total function, never
raises); and a subsequent `setState` over passive subscribers appends no
invocation record for `cb`.  (As stated the claim fails when `cb` was
already subscribed: the JS `Set` keeps one entry, so the disconnect then
shrinks the set below its pre-subscribe size — see the counterexample.) -/
theorem claimC8 [DecidableEq V] [Inhabited V] (env : Nat → List (Action V))
    {s : Sys V} {cid : Nat} {c : CellData V} {cb : Callback}
    (hc : s.cell? cid = some c) (hcb : cb ∉ c.listeners) :
    disconnect (subscribe s cid cb) cid cb = s ∧
    disconnect s cid cb = s ∧
    (∀ (v : V) (f : Nat), (∀ x ∈ c.listeners, Passive env x) →
      c.listeners.length + 4 ≤ f →
      invCount (setState env f s cid v).sys.log cb = invCount s.log cb) := by
  have hsub : subscribe s cid cb =
      setCell s cid { c with listeners := c.listeners ++ [cb] } := by
    unfold subscribe
    simp only [hc]
    rw [if_neg hcb]
  have herase : ({ c with listeners := c.listeners ++ [cb] } : CellData V).listeners.erase cb =
      c.listeners := by
    show (c.listeners ++ [cb]).erase cb = c.listeners
    rw [List.erase_append_right _ hcb, List.erase_cons_head, List.append_nil]
  refine ⟨?_, ?_, ?_⟩
  · rw [hsub, disconnect_of_cell? (cell?_setCell_self _ hc) cb, herase]
    show { s with cells := (s.cells.set cid _).set cid _ } = s
    rw [List.set_set]
    exact setCell_restore hc
  · rw [disconnect_of_cell? hc cb, List.erase_of_not_mem hcb]
    exact setCell_restore hc
  · intro v f hpas hf
    by_cases hv : c.value = v
    · rw [setState_noop_run env hc hv (by omega)]
      rfl
    · rw [setState_passive_run env hc hv hpas hf]
      show invCount (s.log ++ c.listeners.map (Ev.inv s.nextPass)) cb = invCount s.log cb
      rw [invCount_append, invCount_map_inv, List.count_eq_zero.mpr hcb]
      omega

/-- C8 counterexample to the claim as stated: in `c8s` the callback
`ext 0` is already subscribed (set size 1 — the pre-subscribe count);
after `subscribe(ext 0)` (a `Set.add` no-op) and one disconnect, the set
size is 0, not the pre-subscribe count 1. -/
theorem claimC8_counterexample :
    (listenersOf c8s 0).length = 1 ∧
    (listenersOf (disconnect (subscribe c8s 0 (.ext 0)) 0 (.ext 0)) 0).length = 0 := by
  decide

/-- C8 witness: subscribing the fresh callback `ext 2` to `w8sys` and
disconnecting restores the state exactly, and a subsequent `setState`
logs no invocation of `ext 2`. -/
theorem claimC8_witness :
    disconnect (subscribe w8sys 0 (.ext 2)) 0 (.ext 2) = w8sys ∧
    invCount (setState env1 9 w8sys 0 5).sys.log (.ext 2) = invCount w8sys.log (.ext 2) := by
  have h := @claimC8 Nat _ _ env1 w8sys 0 ⟨1, [.ext 1], none, []⟩ (.ext 2) rfl (by decide)
  exact ⟨h.1, h.2.2 5 9
    (by intro x hm; rw [List.mem_singleton] at hm; exact ⟨1, hm, rfl⟩) (by decide)⟩

/-- C9 (confirmed): a Derived Cell's dependency set only grows.  Every
interpreter operation — `setState` with its full notification cascade,
recomputations, external callback scripts (including their subscribes and
disconnects), whether it completes or throws — as well as cell
construction, `subscribe`, and disconnecting an external callback,
preserves every registered dependency and keeps every selector hook
subscribed.  (External code holds no disconnect handle for a selector
hook: `addDep` discards the handle, so only `ext` callbacks can ever be
disconnected.) -/
theorem claimC9 [DecidableEq V] [Inhabited V] (env : Nat → List (Action V)) :
    (∀ (f : Nat) (s : Sys V) (t : Task V) (s' : Sys V),
      runT env f s t = .ok s' ∨ runT env f s t = .exn s' → Keeps s s') ∧
    (∀ (s : Sys V) (g : GenExp V) (s' : Sys V),
      mkSelector s g = .ok s' ∨ mkSelector s g = .exn s' → Keeps s s') ∧
    (∀ (s : Sys V) (v : V), Keeps s (mkAtom s v)) ∧
    (∀ (s : Sys V) (cid : Nat) (cb : Callback), Keeps s (subscribe s cid cb)) ∧
    (∀ (s : Sys V) (cid k : Nat), Keeps s (disconnect s cid (Callback.ext k))) := by
  refine ⟨?_, ?_, keeps_mkAtom, fun s cid cb => (geff_subscribe s cid cb).keeps,
    keeps_disconnect_ext⟩
  · intro f s t s' h
    have hk := keepsR_runT env f s t
    rcases h with h | h <;> rw [h] at hk <;> exact hk
  · intro s g s' h
    have hk := keepsR_mkSelector s g
    rcases h with h | h <;> rw [h] at hk <;> exact hk

/-- C9 witness: the `name.setState("Sarah")` step of the concrete program
keeps every dependency and hook subscription of `info`. -/
theorem claimC9_witness : Keeps c4sys1 c4sys2 :=
  (claimC9 envNilJ).1 20 c4sys1 (.upd 1 (.s "Sarah")) c4sys2 (Or.inl rfl)

/-- C10 (confirmed): subscribing a callback that is already subscribed is
a `Set.add` no-op — the state is returned unchanged, so the callback
appears once; a subsequent update over passive subscribers invokes it
exactly once (its invocation count grows by exactly 1); and one
disconnect — the handles returned by both subscribe calls are the same
(cell, callback) deleter — removes the callback entirely. -/
theorem claimC10 [DecidableEq V] [Inhabited V] (env : Nat → List (Action V))
    {s : Sys V} {cid : Nat} {c : CellData V} {cb : Callback}
    (hc : s.cell? cid = some c) (hm : cb ∈ c.listeners) (h1 : c.listeners.count cb = 1) :
    subscribe s cid cb = s ∧
    listenersOf (disconnect s cid cb) cid = c.listeners.erase cb ∧
    cb ∉ listenersOf (disconnect s cid cb) cid ∧
    (∀ (v : V) (f : Nat), c.value ≠ v → (∀ x ∈ c.listeners, Passive env x) →
      c.listeners.length + 4 ≤ f →
      invCount (setState env f s cid v).sys.log cb = invCount s.log cb + 1) := by
  have hsub : subscribe s cid cb = s := by
    unfold subscribe
    simp only [hc]
    rw [if_pos hm]
  have hld : listenersOf (disconnect s cid cb) cid = c.listeners.erase cb := by
    rw [disconnect_of_cell? hc cb, listenersOf_of_cell? (cell?_setCell_self _ hc)]
  have h0 : (c.listeners.erase cb).count cb = 0 := by
    rw [List.count_erase_self, h1]
  refine ⟨hsub, hld, ?_, ?_⟩
  · rw [hld]
    exact fun hmem => absurd hmem (List.count_eq_zero.mp h0)
  · intro v f hv hpas hf
    rw [setState_passive_run env hc hv hpas hf]
    show invCount (s.log ++ c.listeners.map (Ev.inv s.nextPass)) cb = invCount s.log cb + 1
    rw [invCount_append, invCount_map_inv, h1]

/-- C10 witness: `ext 3` is subscribed once in `w10sys`; re-subscribing
leaves the state unchanged, an update invokes it exactly once, and one
disconnect removes it entirely. -/
theorem claimC10_witness :
    subscribe w10sys 0 (.ext 3) = w10sys ∧
    Callback.ext 3 ∉ listenersOf (disconnect w10sys 0 (.ext 3)) 0 ∧
    invCount (setState env1 9 w10sys 0 5).sys.log (.ext 3) =
      invCount w10sys.log (.ext 3) + 1 := by
  have h := @claimC10 Nat _ _ env1 w10sys 0 ⟨1, [.ext 1, .ext 3], none, []⟩ (.ext 3)
    rfl (by decide) (by decide)
  exact ⟨h.1, h.2.2.1, h.2.2.2 5 9 (by decide)
    (by
      intro x hm
      rcases List.mem_cons.mp hm with h1 | h1
      · exact ⟨1, h1, rfl⟩
      · rw [List.mem_singleton] at h1
        exact ⟨3, h1, rfl⟩) (by decide)⟩

end Coiled
